import Mathlib

/-!
Verification of the concurrent frontier crawler of this repository.

`src/main.py` contains `crawl_all_classes`, a wave-based crawler: it keeps a
`visited` set, a `results` list and a `to_crawl` list; each iteration of its
`while to_crawl` loop submits one `crawl_one_class` call per occurrence of a
not-yet-visited url in `to_crawl` to a thread pool, resets `to_crawl`, and
processes the completed fetches in completion order: a success appends its
record to `results`, adds its url to `visited`, and appends every child url
not currently in `visited` to `to_crawl`; an exception is caught and ignored.

`src/data.py` contains `fetch_ifc_data` / `fetch_class`, a recursive
depth-first variant against the bSDD REST API: it marks a class code visited
BEFORE fetching, builds a record (grouping properties by category, with a
catch-all "Attributes" placeholder when there are none), appends it to the
output and recurses into the children; a request error is caught and ignored.

The fetch of one identifier (`crawl_one_class`, resp. the three API requests
of `fetch_class`) is an external collaborator: it is modelled as a function
into `Option` (`none` = the exception path).  The nondeterministic
`as_completed` completion order of one wave is modelled by a scheduler
`σ : ℕ → List α → List α` that reorders each dispatched wave (the intended
schedulers are exactly the permutation-valid ones).
-/

/-- State of the `while to_crawl` loop of `crawl_all_classes` (src/main.py,
lines 308-310): the `visited` set, the `results` list of records (opaque to
the crawler, type `ν`), and the pending `to_crawl` list. -/
structure CrawlState (α ν : Type) where
  visited : Finset α
  results : List ν
  toCrawl : List α
deriving DecidableEq

variable {α ν : Type} [DecidableEq α]

/-- Processing of one completed future in the `for future in as_completed`
loop (src/main.py lines 317-327): on success append the record to `results`,
add the url to `visited`, and append each child url not currently in
`visited` to `to_crawl`; on an exception do nothing. -/
def processOne (f : α → Option (ν × List α)) (st : CrawlState α ν) (url : α) :
    CrawlState α ν :=
  match f url with
  | none => st
  | some (data, childUrls) =>
      { visited := insert url st.visited
        results := st.results ++ [data]
        toCrawl := st.toCrawl ++
          childUrls.filter (fun c => decide (c ∉ insert url st.visited)) }

/-- Processing of all completed futures of one wave, in the given completion
order. -/
def processWave (f : α → Option (ν × List α)) (st : CrawlState α ν)
    (w : List α) : CrawlState α ν :=
  w.foldl (processOne f) st

/-- The list of fetch calls issued for the current `to_crawl` list: one
`executor.submit(crawl_one_class, url)` per occurrence of a url not in
`visited` (src/main.py line 315). -/
def dispatched (st : CrawlState α ν) : List α :=
  st.toCrawl.filter (fun u => decide (u ∉ st.visited))

/-- One iteration of the `while to_crawl` loop: submit the dispatched urls,
reset `to_crawl` to `[]` (line 316), and process the outcomes in the
completion order chosen by the scheduler `σ`. -/
def crawlStep (f : α → Option (ν × List α)) (σ : ℕ → List α → List α)
    (n : ℕ) (st : CrawlState α ν) : CrawlState α ν :=
  processWave f { st with toCrawl := [] } (σ n (dispatched st))

/-- The `while to_crawl` loop of `crawl_all_classes`, fuel-indexed (the fuel
also serves as the scheduler's wave index; any fuel large enough to reach the
empty-`to_crawl` fixpoint gives the loop's result). -/
def crawlAux (f : α → Option (ν × List α)) (σ : ℕ → List α → List α) :
    ℕ → CrawlState α ν → CrawlState α ν
  | 0, st => st
  | n + 1, st =>
      if st.toCrawl = [] then st
      else crawlAux f σ n (crawlStep f σ n st)

/-- Initial crawl state: empty `visited`, empty `results`,
`to_crawl = [start_url]` (src/main.py lines 308-310). -/
def initState (start : α) : CrawlState α ν :=
  { visited := ∅, results := [], toCrawl := [start] }

/-- `crawl_all_classes(start_url)` (src/main.py lines 304-328). -/
def crawlAllClasses (f : α → Option (ν × List α)) (σ : ℕ → List α → List α)
    (fuel : ℕ) (start : α) : CrawlState α ν :=
  crawlAux f σ fuel (initState start)

/-- The successive waves actually handed to the worker pool: for each loop
iteration, the list of urls submitted to the executor (in completion order). -/
def crawlWaves (f : α → Option (ν × List α)) (σ : ℕ → List α → List α) :
    ℕ → CrawlState α ν → List (List α)
  | 0, _ => []
  | n + 1, st =>
      if st.toCrawl = [] then []
      else σ n (dispatched st) :: crawlWaves f σ n (crawlStep f σ n st)

/-! ### The recursive API variant: `fetch_ifc_data` / `fetch_class`
(src/data.py) -/

/-- One entry of the `classProperties` array returned by the bSDD
properties endpoint, as read by `fetch_class` (src/data.py lines 50-60):
`propertySet` may be missing or null (modelled by `Option`), the remaining
fields are read with a `""` default. -/
structure PropData where
  propertySet : Option String
  name : String
  dataType : String
  definition : String
deriving DecidableEq

/-- One property as stored in the output record (src/data.py lines 56-60). -/
structure PropEntry where
  name : String
  data_type : String
  definition : String
deriving DecidableEq

/-- One entry of `childClassReferences` (src/data.py lines 82-85, 103-104):
its `uri` feeds the record's `child_classes`, its `code` drives the
recursion. -/
structure ChildRef (α : Type) where
  uri : String
  code : α
deriving DecidableEq

/-- The class metadata of the `Class/v1` endpoint used by `fetch_class`. -/
structure ClassData (α : Type) where
  name : String
  code : String
  uri : String
  childClassReferences : List (ChildRef α)
deriving DecidableEq

/-- One entry of `classRelations` (src/data.py lines 71-77). -/
structure RelData where
  relationType : String
  classUri : String
  className : String
  dictionaryUri : String
deriving DecidableEq

/-- A processed relation of the output record (src/data.py lines 72-77). -/
structure RelOut where
  relation_type : String
  class_uri : String
  class_name : String
  dictionary_uri : String
deriving DecidableEq

/-- The payload of the `Class/Relations/v1` endpoint (src/data.py lines
43-45, 90-96). -/
structure RelationsData where
  classRelations : List RelData
  classUri : String
  areReversedRelations : Bool
  totalCount : ℕ
  offset : ℕ
  count : ℕ
deriving DecidableEq

/-- The `relations_info` block of the output record (src/data.py lines
90-96). -/
structure RelInfo where
  class_uri : String
  are_reversed_relations : Bool
  total_count : ℕ
  offset : ℕ
  count : ℕ
deriving DecidableEq

/-- What the three API requests of one `fetch_class` call yield together;
the whole triple is `none` when any of them raises (the
`requests.RequestException` path of src/data.py lines 108-109). -/
structure ApiResponse (α : Type) where
  classData : ClassData α
  classProperties : List PropData
  relationsData : RelationsData
deriving DecidableEq

/-- The record appended to `output` for one successfully fetched class
(src/data.py lines 79-97). -/
structure ApiRecord where
  class_name : String
  code : String
  child_classes : List String
  relations : List RelOut
  incoming_relations : List String
  url : String
  properties : List (String × List PropEntry)
  relations_info : RelInfo
deriving DecidableEq

/-- `p.get("propertySet", "Attributes")` followed by the falsy check
`if not category: category = "Attributes"` (src/data.py lines 51-53). -/
def categoryOf (p : PropData) : String :=
  match p.propertySet with
  | none => "Attributes"
  | some s => if s = "" then "Attributes" else s

/-- The `{name, data_type, definition}` entry built from one property
(src/data.py lines 56-60). -/
def entryOf (p : PropData) : PropEntry :=
  { name := p.name, data_type := p.dataType, definition := p.definition }

/-- Insertion into the `properties_by_category` dict (src/data.py lines
54-60): an existing category gets the entry appended in place, a new
category is appended at the end (Python dicts preserve insertion order). -/
def addToCategory (m : List (String × List PropEntry)) (cat : String)
    (e : PropEntry) : List (String × List PropEntry) :=
  match m with
  | [] => [(cat, [e])]
  | (c, es) :: rest =>
      if c = cat then (c, es ++ [e]) :: rest
      else (c, es) :: addToCategory rest cat e

/-- The grouped `properties_by_category` mapping, including the catch-all
`"Attributes"` placeholder inserted when the class has no properties at all
(src/data.py lines 49-67). -/
def propertiesByCategory (ps : List PropData) :
    List (String × List PropEntry) :=
  let grouped := ps.foldl (fun m p => addToCategory m (categoryOf p) (entryOf p)) []
  if grouped = [] then
    [("Attributes", [{ name := "Attributes", data_type := "not in bSDD",
                       definition := "" }])]
  else grouped

/-- The `obj` dict built and appended for a successfully fetched class
(src/data.py lines 79-99).  `urlPath` models `urllib.parse.urlparse(·).path`
(an external library function). -/
def mkObj (urlPath : String → String) (resp : ApiResponse α) : ApiRecord :=
  { class_name := resp.classData.name
    code := resp.classData.code
    child_classes :=
      resp.classData.childClassReferences.map (fun c => urlPath c.uri)
    relations := resp.relationsData.classRelations.map (fun r =>
      { relation_type := r.relationType
        class_uri := r.classUri
        class_name := r.className
        dictionary_uri := r.dictionaryUri })
    incoming_relations := []
    url := resp.classData.uri
    properties := propertiesByCategory resp.classProperties
    relations_info :=
      { class_uri := resp.relationsData.classUri
        are_reversed_relations := resp.relationsData.areReversedRelations
        total_count := resp.relationsData.totalCount
        offset := resp.relationsData.offset
        count := resp.relationsData.count } }

/-- The recursive `fetch_class` closure of `fetch_ifc_data` (src/data.py
lines 17-109), fuel-indexed to bound the recursion depth: return early if
the class code is already visited (lines 18-20), mark it visited BEFORE
fetching (line 22), on a request error change nothing else (lines 108-109),
and on success append the record and recurse into the children's codes in
order (lines 99-104). -/
def fetchClass (urlPath : String → String)
    (api : α → Option (ApiResponse α)) :
    ℕ → Finset α × List ApiRecord → α → Finset α × List ApiRecord
  | 0, s, _ => s
  | fuel + 1, s, classCode =>
      if classCode ∈ s.1 then s
      else
        match api classCode with
        | none => (insert classCode s.1, s.2)
        | some resp =>
            (resp.classData.childClassReferences.map (fun c => c.code)).foldl
              (fetchClass urlPath api fuel)
              (insert classCode s.1, s.2 ++ [mkObj urlPath resp])

/-- `fetch_ifc_data(start_class)` (src/data.py lines 9-112): runs
`fetch_class` from the start class on an initially empty visited set and
output list; the pair (visited, output) is returned (the Python function
returns `output` and closes over `visited`). -/
def fetchIfcData (urlPath : String → String)
    (api : α → Option (ApiResponse α)) (fuel : ℕ) (startClass : α) :
    Finset α × List ApiRecord :=
  fetchClass urlPath api fuel (∅, []) startClass

/-! ### Concrete instances used to settle the claims on explicit inputs -/

/-- The in-submission-order completion schedule. -/
def sigmaId : ℕ → List String → List String := fun _ l => l

/-- The reversed completion schedule (a different `as_completed` order). -/
def sigmaRev : ℕ → List String → List String := fun _ l => l.reverse

/-- Fetch collaborator for the diamond graph: Root has children P and Q,
and both P and Q list the same child Z; every fetch succeeds and the record
returned for a url is the url itself (the `url` key of the record data). -/
def fDup : String → Option (String × List String) := fun u =>
  if u = "Root" then some ("Root", ["P", "Q"])
  else if u = "P" then some ("P", ["Z"])
  else if u = "Q" then some ("Q", ["Z"])
  else if u = "Z" then some ("Z", [])
  else none

/-- Fetch collaborator for the cycle graph of the spec's test property 3:
Root → [A, B], A → [C], B → [], C → [Root]; every fetch succeeds. -/
def fC9 : String → Option (String × List String) := fun u =>
  if u = "Root" then some ("Root", ["A", "B"])
  else if u = "A" then some ("A", ["C"])
  else if u = "B" then some ("B", [])
  else if u = "C" then some ("C", ["Root"])
  else none

/-- Fetch collaborator where P succeeds and lists child X, while X itself
always fails. -/
def fRetry : String → Option (String × List String) := fun u =>
  if u = "P" then some ("P", ["X"])
  else none

/-- A state whose visited registry already holds Z and whose pending list
holds Root. -/
def stVisitedZ : CrawlState String String :=
  { visited := {"Z"}, results := [], toCrawl := ["Root"] }

/-- A wave in which the failing X and its successful sibling P are both
pending. -/
def stXP : CrawlState String String :=
  { visited := ∅, results := [], toCrawl := ["X", "P"] }

/-- A minimal successful API response with the given name/code/uri and
children (no properties, no relations). -/
def mkResp (nm : String) (children : List String) : ApiResponse String :=
  { classData :=
      { name := nm
        code := nm
        uri := nm
        childClassReferences := children.map (fun c => ⟨c, c⟩) }
    classProperties := []
    relationsData :=
      { classRelations := []
        classUri := ""
        areReversedRelations := false
        totalCount := 0
        offset := 0
        count := 0 } }

/-- API collaborator for the same cycle graph, for the recursive variant. -/
def api9 : String → Option (ApiResponse String) := fun u =>
  if u = "Root" then some (mkResp "Root" ["A", "B"])
  else if u = "A" then some (mkResp "A" ["C"])
  else if u = "B" then some (mkResp "B" [])
  else if u = "C" then some (mkResp "C" ["Root"])
  else none

/-- API collaborator for which every request raises. -/
def apiFail : String → Option (ApiResponse String) := fun _ => none

/-- The record of each successful fetch of the wave. -/
def waveRecords (f : α → Option (ν × List α)) (w : List α) : List ν :=
  w.filterMap (fun u => Option.map Prod.fst (f u))

/-- The children contributed to `to_crawl` by the successes of a wave, in
wave order, before the not-in-`visited` filter. -/
def successChildren (f : α → Option (ν × List α)) (w : List α) : List α :=
  w.flatMap (fun u => match f u with | some p => p.2 | none => [])

/-! ### Characterization of one wave of processing -/

theorem processWave_nil (f : α → Option (ν × List α)) (st : CrawlState α ν) :
    processWave f st [] = st := rfl

theorem processWave_cons (f : α → Option (ν × List α)) (st : CrawlState α ν)
    (u : α) (w : List α) :
    processWave f st (u :: w) = processWave f (processOne f st u) w := rfl

/-- Membership in the visited set after a wave: the old visited urls plus the
urls of the wave whose fetch succeeds. -/
theorem mem_visited_processWave (f : α → Option (ν × List α))
    (st : CrawlState α ν) (w : List α) (x : α) :
    x ∈ (processWave f st w).visited ↔
      x ∈ st.visited ∨ (x ∈ w ∧ (f x).isSome) := by
  induction w generalizing st with
  | nil => simp [processWave]
  | cons u w ih =>
      rw [processWave_cons, ih]
      unfold processOne
      rcases hu : f u with _ | p
      · constructor
        · rintro (h | ⟨hw, hs⟩)
          · exact Or.inl h
          · exact Or.inr ⟨List.mem_cons_of_mem _ hw, hs⟩
        · rintro (h | ⟨hw, hs⟩)
          · exact Or.inl h
          · rcases List.mem_cons.mp hw with rfl | hw
            · rw [hu] at hs; simp at hs
            · exact Or.inr ⟨hw, hs⟩
      · simp only [Finset.mem_insert]
        constructor
        · rintro ((rfl | h) | ⟨hw, hs⟩)
          · exact Or.inr ⟨List.mem_cons_self _ _, by simp [hu]⟩
          · exact Or.inl h
          · exact Or.inr ⟨List.mem_cons_of_mem _ hw, hs⟩
        · rintro (h | ⟨hw, hs⟩)
          · exact Or.inl (Or.inr h)
          · rcases List.mem_cons.mp hw with rfl | hw
            · exact Or.inl (Or.inl rfl)
            · exact Or.inr ⟨hw, hs⟩

/-- The visited set only grows along a wave. -/
theorem visited_subset_processWave (f : α → Option (ν × List α))
    (st : CrawlState α ν) (w : List α) :
    st.visited ⊆ (processWave f st w).visited := by
  intro x hx
  exact (mem_visited_processWave f st w x).mpr (Or.inl hx)

/-- The results after a wave are the old results followed by the records of
the successes of the wave, in completion order. -/
theorem results_processWave (f : α → Option (ν × List α))
    (st : CrawlState α ν) (w : List α) :
    (processWave f st w).results = st.results ++ waveRecords f w := by
  induction w generalizing st with
  | nil => simp [processWave, waveRecords]
  | cons u w ih =>
      rw [processWave_cons, ih]
      unfold processOne
      rcases hu : f u with _ | p
      · simp [waveRecords, List.filterMap_cons, hu]
      · simp [waveRecords, List.filterMap_cons, hu]

/-- Urls already pending in `to_crawl` stay pending through a wave (the loop
body only appends to `to_crawl`). -/
theorem mem_toCrawl_mono (f : α → Option (ν × List α)) (st : CrawlState α ν)
    (w : List α) {c : α} (hc : c ∈ st.toCrawl) :
    c ∈ (processWave f st w).toCrawl := by
  induction w generalizing st with
  | nil => exact hc
  | cons u w ih =>
      rw [processWave_cons]
      refine ih _ ?_
      unfold processOne
      rcases f u with _ | p
      · exact hc
      · exact List.mem_append_left _ hc

/-- Every url pending after a wave was either already pending or is a child
of a successful fetch of the wave. -/
theorem mem_toCrawl_processWave (f : α → Option (ν × List α))
    (st : CrawlState α ν) (w : List α) (c : α)
    (hc : c ∈ (processWave f st w).toCrawl) :
    c ∈ st.toCrawl ∨ ∃ u ∈ w, ∃ p, f u = some p ∧ c ∈ p.2 := by
  induction w generalizing st with
  | nil => exact Or.inl hc
  | cons u w ih =>
      rw [processWave_cons] at hc
      rcases ih _ hc with h | ⟨v, hv, p, hfv, hcp⟩
      · unfold processOne at h
        rcases hu : f u with _ | p
        · rw [hu] at h
          exact Or.inl h
        · rw [hu] at h
          rcases List.mem_append.mp h with h | h
          · exact Or.inl h
          · exact Or.inr ⟨u, List.mem_cons_self _ _, p, hu,
              (List.mem_filter.mp h).1⟩
      · exact Or.inr ⟨v, List.mem_cons_of_mem _ hv, p, hfv, hcp⟩

/-- A child of a fetch that succeeds during the wave is pending afterwards,
provided it did not end up visited. -/
theorem mem_toCrawl_of_success (f : α → Option (ν × List α))
    (st : CrawlState α ν) {w : List α} {v : α} {r : ν} {cs : List α} {c : α}
    (hv : v ∈ w) (hfv : f v = some (r, cs)) (hc : c ∈ cs)
    (hcvis : c ∉ (processWave f st w).visited) :
    c ∈ (processWave f st w).toCrawl := by
  induction w generalizing st with
  | nil => cases hv
  | cons u w ih =>
      rw [processWave_cons] at hcvis ⊢
      rcases List.mem_cons.mp hv with rfl | hv
      · refine mem_toCrawl_mono f _ w ?_
        have hsub : (processOne f st v).visited ⊆
            (processWave f (processOne f st v) w).visited :=
          visited_subset_processWave f _ w
        have hcv : c ∉ (processOne f st v).visited := fun h => hcvis (hsub h)
        unfold processOne at hcv ⊢
        rw [hfv] at hcv ⊢
        refine List.mem_append_right _ ?_
        exact List.mem_filter.mpr ⟨hc, by simpa using hcv⟩
      · exact ih _ hv hcvis

/-- Filtering the pending list of a post-wave state by any superset `V` of
its visited set forgets the in-flight visited checks: it equals the old
pending list filtered by `V` followed by all children of successes filtered
by `V`. -/
theorem toCrawl_filter_processWave (f : α → Option (ν × List α))
    (st : CrawlState α ν) (w : List α) (V : Finset α)
    (hV : ∀ x ∈ (processWave f st w).visited, x ∈ V) :
    (processWave f st w).toCrawl.filter (fun c => decide (c ∉ V)) =
      st.toCrawl.filter (fun c => decide (c ∉ V)) ++
        (successChildren f w).filter (fun c => decide (c ∉ V)) := by
  induction w generalizing st with
  | nil => simp [processWave, successChildren]
  | cons u w ih =>
      rw [processWave_cons] at hV ⊢
      rw [ih _ hV]
      unfold processOne
      rcases hu : f u with _ | p
      · simp [successChildren, List.flatMap_cons, hu]
      · obtain ⟨d, cs⟩ := p
        have hins : ∀ x ∈ insert u st.visited, x ∈ V := by
          intro x hx
          refine hV x ?_
          have : x ∈ (processOne f st u).visited := by
            unfold processOne
            rw [hu]
            exact hx
          exact visited_subset_processWave f _ w this
        simp only [successChildren, List.flatMap_cons, hu, List.filter_append,
          List.append_assoc]
        congr 1
        rw [List.filter_filter]
        congr 1
        refine List.filter_congr ?_
        intro a _
        by_cases haV : a ∈ V
        · simp [haV]
        · have : a ∉ insert u st.visited := fun h => haV (hins a h)
          simp [haV, this]

/-! ### Crawl-level lemmas -/

/-- A state with an empty `to_crawl` list is terminal: the `while to_crawl`
loop does not run again, whatever fuel remains. -/
theorem crawlAux_empty (f : α → Option (ν × List α)) (σ : ℕ → List α → List α)
    (n : ℕ) (st : CrawlState α ν) (h : st.toCrawl = []) :
    crawlAux f σ n st = st := by
  cases n with
  | zero => rfl
  | succ n => simp [crawlAux, h]

theorem crawlAux_succ (f : α → Option (ν × List α)) (σ : ℕ → List α → List α)
    (n : ℕ) (st : CrawlState α ν) (h : ¬ st.toCrawl = []) :
    crawlAux f σ (n + 1) st = crawlAux f σ n (crawlStep f σ n st) := by
  simp [crawlAux, h]

/-- The visited set only grows across one loop iteration. -/
theorem visited_subset_crawlStep (f : α → Option (ν × List α))
    (σ : ℕ → List α → List α) (n : ℕ) (st : CrawlState α ν) :
    st.visited ⊆ (crawlStep f σ n st).visited :=
  visited_subset_processWave f { st with toCrawl := [] } (σ n (dispatched st))

/-- A url already visited is never among the fetch calls issued from a
state. -/
theorem visited_not_dispatched (st : CrawlState α ν) {u : α}
    (hu : u ∈ st.visited) : u ∉ dispatched st := by
  intro h
  have := (List.mem_filter.mp h).2
  simp at this
  exact this hu

/-! ### Claim C3: the visited registry grows monotonically and a visited
identifier is never dispatched again -/

/-- C3: throughout a crawl of `crawl_all_classes` the visited registry only
grows (the final visited set contains the starting one, and likewise after
every step), and once an identifier is in the visited registry it never
appears in any wave subsequently submitted to the worker pool, for any
completion order of the waves. -/
theorem C3_visited_monotone_never_redispatched
    (f : α → Option (ν × List α)) (σ : ℕ → List α → List α)
    (hσ : ∀ n l, List.Perm (σ n l) l) (fuel : ℕ) (st : CrawlState α ν) :
    st.visited ⊆ (crawlAux f σ fuel st).visited ∧
      ∀ u ∈ st.visited, ∀ w ∈ crawlWaves f σ fuel st, u ∉ w := by
  induction fuel generalizing st with
  | zero =>
      refine ⟨Finset.Subset.refl _, ?_⟩
      intro u _ w hw
      simp [crawlWaves] at hw
  | succ n ih =>
      by_cases h : st.toCrawl = []
      · refine ⟨by simp [crawlAux, h], ?_⟩
        intro u _ w hw
        simp [crawlWaves, h] at hw
      · constructor
        · rw [crawlAux_succ f σ n st h]
          exact (visited_subset_crawlStep f σ n st).trans
            (ih (crawlStep f σ n st)).1
        · intro u hu w hw
          rw [show crawlWaves f σ (n + 1) st =
              σ n (dispatched st) :: crawlWaves f σ n (crawlStep f σ n st) by
            simp [crawlWaves, h]] at hw
          rcases List.mem_cons.mp hw with rfl | hw
          · intro hmem
            exact visited_not_dispatched st hu ((hσ n _).mem_iff.mp hmem)
          · exact (ih (crawlStep f σ n st)).2 u
              (visited_subset_crawlStep f σ n st hu) w hw

/-! ### Claim C5: a per-node failure is absorbed and leaves the rest of the
wave untouched -/

/-- C5: a fetch failure for one identifier never escapes the worker-pool
boundary: processing the failed identifier leaves the crawl state exactly
unchanged (the exception is caught, src/main.py lines 326-327), and
processing a whole wave gives the same state as processing the wave with
every occurrence of the failing identifier removed — the siblings' handling
is unaffected. -/
theorem C5_failure_isolated
    (f : α → Option (ν × List α)) (st : CrawlState α ν) (w : List α) (x : α)
    (hfx : f x = none) :
    processOne f st x = st ∧
      processWave f st w =
        processWave f st (w.filter (fun u => decide (u ≠ x))) := by
  have h1 : ∀ s : CrawlState α ν, processOne f s x = s := by
    intro s
    unfold processOne
    rw [hfx]
  refine ⟨h1 st, ?_⟩
  induction w generalizing st with
  | nil => rfl
  | cons u w ih =>
      by_cases hux : u = x
      · subst hux
        rw [List.filter_cons, processWave_cons, h1 st]
        rw [if_neg (by simp)]
        exact ih st
      · rw [List.filter_cons, if_pos (by simp [hux]), processWave_cons,
          processWave_cons]
        exact ih (processOne f st u)

/-! ### Claim C6: a failed identifier rediscovered by a successful sibling
is dispatched again in the next wave -/

/-- C6: if `x` is dispatched in some wave and its fetch fails, while a
sibling `p` dispatched in the same wave succeeds and lists `x` among its
children, then `x` is among the fetch calls issued in the next wave
(whatever completion order the wave had): the failure does not poison
future scheduling. -/
theorem C6_failed_rediscovered_redispatched
    (f : α → Option (ν × List α)) (σ : ℕ → List α → List α)
    (hσ : ∀ m l, List.Perm (σ m l) l) (n : ℕ) (st : CrawlState α ν)
    {x p : α} {r : ν} {cs : List α}
    (hx : x ∈ dispatched st) (hp : p ∈ dispatched st)
    (hfx : f x = none) (hfp : f p = some (r, cs)) (hxc : x ∈ cs) :
    x ∈ dispatched (crawlStep f σ n st) := by
  have hxv : x ∉ st.visited := by
    have := (List.mem_filter.mp hx).2
    simp at this
    exact this
  have hpw : p ∈ σ n (dispatched st) := (hσ n _).mem_iff.mpr hp
  have hvis : x ∉ (processWave f { st with toCrawl := [] }
      (σ n (dispatched st))).visited := by
    rw [mem_visited_processWave]
    rintro (h | ⟨_, hs⟩)
    · exact hxv h
    · rw [hfx] at hs
      simp at hs
  have htc : x ∈ (processWave f { st with toCrawl := [] }
      (σ n (dispatched st))).toCrawl :=
    mem_toCrawl_of_success f _ hpw hfp hxc hvis
  exact List.mem_filter.mpr ⟨htc, by simpa using hvis⟩

/-! ### Claim C4 (amended): in `crawl_all_classes` the visited registry
holds only successfully fetched identifiers -/

/-- C4 (amended to the wave-based crawler): at every point of a
`crawl_all_classes` crawl, the visited set contains only identifiers whose
fetch succeeds — `visited.add(url)` runs only after `future.result()`
returned without raising (src/main.py line 322).  (The recursive API variant
`fetch_class` of src/data.py instead marks an identifier visited before
fetching; see the counterexample.) -/
theorem C4_visited_only_successes
    (f : α → Option (ν × List α)) (σ : ℕ → List α → List α) (fuel : ℕ)
    (st : CrawlState α ν) (h : ∀ u ∈ st.visited, (f u).isSome) :
    ∀ u ∈ (crawlAux f σ fuel st).visited, (f u).isSome := by
  induction fuel generalizing st with
  | zero => exact h
  | succ n ih =>
      by_cases he : st.toCrawl = []
      · rw [crawlAux_empty f σ (n + 1) st he]
        exact h
      · rw [crawlAux_succ f σ n st he]
        refine ih (crawlStep f σ n st) ?_
        intro u hu
        rcases (mem_visited_processWave f _ _ u).mp hu with h0 | ⟨_, hs⟩
        · exact h u h0
        · exact hs

/-! ### Claim C7: empty next wave is the terminal state, and the crawl
terminates on every finite child-graph -/

/-- Auxiliary termination bound: as long as all pending urls lie in a finite
set `S` closed under children of successful fetches, the loop reaches the
empty-`to_crawl` terminal state within `S.card` extra iterations, because
every iteration that produces a nonempty next wave strictly grows the
visited set inside `S`. -/
theorem crawlAux_terminates_aux
    (f : α → Option (ν × List α)) (σ : ℕ → List α → List α)
    (hσ : ∀ n l, List.Perm (σ n l) l) (S : Finset α)
    (hclosed : ∀ u pr, f u = some pr → ∀ c ∈ pr.2, c ∈ S) :
    ∀ (fuel : ℕ) (st : CrawlState α ν),
      (∀ c ∈ st.toCrawl, c ∈ S) → st.visited ⊆ S →
      S.card < fuel + st.visited.card →
      (crawlAux f σ fuel st).toCrawl = [] := by
  intro fuel
  induction fuel with
  | zero =>
      intro st _ hvS hcard
      have := Finset.card_le_card hvS
      omega
  | succ n ih =>
      intro st htS hvS hcard
      by_cases he : st.toCrawl = []
      · rw [crawlAux_empty f σ (n + 1) st he]
        exact he
      · rw [crawlAux_succ f σ n st he]
        have hwS : ∀ c ∈ σ n (dispatched st), c ∈ S := by
          intro c hc
          exact htS c (List.mem_filter.mp ((hσ n _).mem_iff.mp hc)).1
        have htS' : ∀ c ∈ (crawlStep f σ n st).toCrawl, c ∈ S := by
          intro c hc
          rcases mem_toCrawl_processWave f _ _ c hc with h0 | ⟨u, hu, pr, hfu, hcp⟩
          · simp at h0
          · exact hclosed u pr hfu c hcp
        have hvS' : (crawlStep f σ n st).visited ⊆ S := by
          intro u hu
          rcases (mem_visited_processWave f _ _ u).mp hu with h0 | ⟨hw, _⟩
          · exact hvS h0
          · exact hwS u hw
        by_cases he' : (crawlStep f σ n st).toCrawl = []
        · rw [crawlAux_empty f σ n _ he']
          exact he'
        · rcases List.exists_mem_of_ne_nil _ he' with ⟨c, hc⟩
          rcases mem_toCrawl_processWave f _ _ c hc with h0 | ⟨u, hu, pr, hfu, _⟩
          · simp at h0
          · have hud : u ∈ dispatched st := (hσ n _).mem_iff.mp hu
            have huv : u ∉ st.visited := by
              have := (List.mem_filter.mp hud).2
              simpa using this
            have huv' : u ∈ (crawlStep f σ n st).visited :=
              (mem_visited_processWave f _ _ u).mpr
                (Or.inr ⟨hu, by simp [hfu]⟩)
            have hss : st.visited ⊂ (crawlStep f σ n st).visited := by
              refine ⟨visited_subset_crawlStep f σ n st, ?_⟩
              intro hsub
              exact huv (hsub huv')
            have := Finset.card_lt_card hss
            exact ih (crawlStep f σ n st) htS' hvS' (by omega)

/-- C7: the crawl of `crawl_all_classes` reaches its terminal state exactly
when the computed next wave is empty — an empty `to_crawl` is a fixpoint of
the loop — and for every finite child-graph (any finite set `S` of
identifiers containing the start and closed under children of successful
fetches, cycles permitted) with a deterministic fetch collaborator the crawl
terminates: `S.card + 1` loop iterations reach the empty pending list. -/
theorem C7_terminal_iff_empty_and_terminates
    (f : α → Option (ν × List α)) (σ : ℕ → List α → List α)
    (hσ : ∀ n l, List.Perm (σ n l) l) (S : Finset α) (start : α)
    (hstart : start ∈ S)
    (hclosed : ∀ u pr, f u = some pr → ∀ c ∈ pr.2, c ∈ S) :
    ((crawlAllClasses f σ (S.card + 1) start :
        CrawlState α ν).toCrawl = []) ∧
      ∀ (n : ℕ) (st : CrawlState α ν), st.toCrawl = [] →
        crawlAux f σ n st = st := by
  constructor
  · refine crawlAux_terminates_aux f σ hσ S hclosed (S.card + 1)
      (initState start) ?_ ?_ ?_
    · intro c hc
      rcases List.mem_singleton.mp hc with rfl
      exact hstart
    · intro u hu
      simp [initState] at hu
    · simp [initState]
  · exact fun n st h => crawlAux_empty f σ n st h

/-! ### Claim C8: the final output is deterministic whatever the completion
order inside each wave -/

/-- The fetch calls of the next iteration are exactly the children of this
wave's successes that did not end up visited (the in-flight `visited` checks
of line 324 are subsumed by the dispatch filter of line 315). -/
theorem dispatched_crawlStep (f : α → Option (ν × List α))
    (σ : ℕ → List α → List α) (n : ℕ) (st : CrawlState α ν) :
    dispatched (crawlStep f σ n st) =
      (successChildren f (σ n (dispatched st))).filter
        (fun c => decide (c ∉ (crawlStep f σ n st).visited)) := by
  have h := toCrawl_filter_processWave f { st with toCrawl := [] }
    (σ n (dispatched st))
    (processWave f { st with toCrawl := [] } (σ n (dispatched st))).visited
    (fun x hx => hx)
  simpa [dispatched, crawlStep] using h

/-- Two runs of the crawl loop from related states — equal visited sets,
permuted results, permuted pending fetch calls — keep their results lists
permutations of each other, for any two permutation-valid schedulers. -/
theorem crawlAux_results_perm (f : α → Option (ν × List α))
    (σ₁ σ₂ : ℕ → List α → List α)
    (hσ₁ : ∀ n l, List.Perm (σ₁ n l) l)
    (hσ₂ : ∀ n l, List.Perm (σ₂ n l) l) :
    ∀ (fuel : ℕ) (st₁ st₂ : CrawlState α ν),
      st₁.visited = st₂.visited →
      st₁.results.Perm st₂.results →
      (dispatched st₁).Perm (dispatched st₂) →
      ((crawlAux f σ₁ fuel st₁).results).Perm
        ((crawlAux f σ₂ fuel st₂).results) := by
  intro fuel
  induction fuel with
  | zero => exact fun st₁ st₂ _ hr _ => hr
  | succ n ih =>
      intro st₁ st₂ hv hr hd
      by_cases h₁ : st₁.toCrawl = [] <;> by_cases h₂ : st₂.toCrawl = []
      · rw [crawlAux_empty f σ₁ (n + 1) st₁ h₁,
          crawlAux_empty f σ₂ (n + 1) st₂ h₂]
        exact hr
      · rw [crawlAux_empty f σ₁ (n + 1) st₁ h₁, crawlAux_succ f σ₂ n st₂ h₂]
        have hd₁ : dispatched st₁ = [] := by simp [dispatched, h₁]
        have hd₂ : dispatched st₂ = [] := (hd.symm.trans (hd₁ ▸ .rfl)).eq_nil
        have hw₂ : σ₂ n (dispatched st₂) = [] := by
          rw [hd₂]
          exact (hσ₂ n []).eq_nil
        have hstep : crawlStep f σ₂ n st₂ = { st₂ with toCrawl := [] } := by
          unfold crawlStep
          rw [hw₂]
          rfl
        rw [hstep, crawlAux_empty f σ₂ n _ rfl]
        exact hr
      · rw [crawlAux_succ f σ₁ n st₁ h₁, crawlAux_empty f σ₂ (n + 1) st₂ h₂]
        have hd₂ : dispatched st₂ = [] := by simp [dispatched, h₂]
        have hd₁ : dispatched st₁ = [] := (hd.trans (hd₂ ▸ .rfl)).eq_nil
        have hw₁ : σ₁ n (dispatched st₁) = [] := by
          rw [hd₁]
          exact (hσ₁ n []).eq_nil
        have hstep : crawlStep f σ₁ n st₁ = { st₁ with toCrawl := [] } := by
          unfold crawlStep
          rw [hw₁]
          rfl
        rw [hstep, crawlAux_empty f σ₁ n _ rfl]
        exact hr
      · rw [crawlAux_succ f σ₁ n st₁ h₁, crawlAux_succ f σ₂ n st₂ h₂]
        have hw : (σ₁ n (dispatched st₁)).Perm (σ₂ n (dispatched st₂)) :=
          ((hσ₁ n _).trans hd).trans (hσ₂ n _).symm
        have hv' : (crawlStep f σ₁ n st₁).visited =
            (crawlStep f σ₂ n st₂).visited := by
          apply Finset.ext
          intro x
          rw [show (crawlStep f σ₁ n st₁).visited =
              (processWave f { st₁ with toCrawl := [] }
                (σ₁ n (dispatched st₁))).visited from rfl,
            show (crawlStep f σ₂ n st₂).visited =
              (processWave f { st₂ with toCrawl := [] }
                (σ₂ n (dispatched st₂))).visited from rfl,
            mem_visited_processWave, mem_visited_processWave]
          simp only [hv, hw.mem_iff]
        have hr' : (crawlStep f σ₁ n st₁).results.Perm
            (crawlStep f σ₂ n st₂).results := by
          rw [show (crawlStep f σ₁ n st₁).results =
              st₁.results ++ waveRecords f (σ₁ n (dispatched st₁)) from
              results_processWave f _ _,
            show (crawlStep f σ₂ n st₂).results =
              st₂.results ++ waveRecords f (σ₂ n (dispatched st₂)) from
              results_processWave f _ _]
          exact hr.append (hw.filterMap _)
        have hd' : (dispatched (crawlStep f σ₁ n st₁)).Perm
            (dispatched (crawlStep f σ₂ n st₂)) := by
          rw [dispatched_crawlStep, dispatched_crawlStep, hv']
          exact (hw.flatMap_right _).filter _
        exact ih (crawlStep f σ₁ n st₁) (crawlStep f σ₂ n st₂) hv' hr' hd'

/-- C8: with a deterministic fetch collaborator, two runs of
`crawl_all_classes` from the same start url produce the same final
collection of records (the results lists are permutations of each other —
in particular the same set), regardless of the completion orders of the
fetches inside each wave. -/
theorem C8_deterministic_output (f : α → Option (ν × List α))
    (σ₁ σ₂ : ℕ → List α → List α)
    (hσ₁ : ∀ n l, List.Perm (σ₁ n l) l)
    (hσ₂ : ∀ n l, List.Perm (σ₂ n l) l) (fuel : ℕ) (start : α) :
    ((crawlAllClasses f σ₁ fuel start).results).Perm
      ((crawlAllClasses f σ₂ fuel start).results) :=
  crawlAux_results_perm f σ₁ σ₂ hσ₁ hσ₂ fuel (initState start)
    (initState start) rfl (List.Perm.refl _) (List.Perm.refl _)

/-! ### Claim C10: every stored record has a non-empty properties mapping -/

/-- The grouped properties mapping is never empty: either the class had
properties (each contributing an entry) or the catch-all `"Attributes"`
placeholder is inserted. -/
theorem propertiesByCategory_ne_nil (ps : List PropData) :
    propertiesByCategory ps ≠ [] := by
  unfold propertiesByCategory
  by_cases h :
      (ps.foldl (fun m p => addToCategory m (categoryOf p) (entryOf p))
        ([] : List (String × List PropEntry))) = []
  · simp [h]
  · simp [h]

/-- Folding `fetch_class` over a list of child codes preserves the
"every output record has non-empty properties" invariant, given that one
`fetch_class` call preserves it. -/
theorem fetchClass_foldl_properties (urlPath : String → String)
    (api : α → Option (ApiResponse α)) (n : ℕ)
    (hone : ∀ (s : Finset α × List ApiRecord) (c : α),
      (∀ o ∈ s.2, o.properties ≠ []) →
      ∀ o ∈ (fetchClass urlPath api n s c).2, o.properties ≠ []) :
    ∀ (l : List α) (s : Finset α × List ApiRecord),
      (∀ o ∈ s.2, o.properties ≠ []) →
      ∀ o ∈ (l.foldl (fetchClass urlPath api n) s).2, o.properties ≠ [] := by
  intro l
  induction l with
  | nil => exact fun s h => h
  | cons a l ihl =>
      intro s h
      exact ihl _ (hone s a h)

/-- Every record in the `output` of a `fetch_class` run has a non-empty
properties mapping, provided the records already present do. -/
theorem fetchClass_properties_ne_nil (urlPath : String → String)
    (api : α → Option (ApiResponse α)) :
    ∀ (fuel : ℕ) (s : Finset α × List ApiRecord) (c : α),
      (∀ o ∈ s.2, o.properties ≠ []) →
      ∀ o ∈ (fetchClass urlPath api fuel s c).2, o.properties ≠ [] := by
  intro fuel
  induction fuel with
  | zero =>
      intro s c h
      simpa [fetchClass] using h
  | succ n ih =>
      intro s c h
      by_cases hc : c ∈ s.1
      · simpa [fetchClass, hc] using h
      · rcases ha : api c with _ | resp
        · simpa [fetchClass, hc, ha] using h
        · have hbase : ∀ o ∈ (s.2 ++ [mkObj urlPath resp]),
              o.properties ≠ [] := by
            intro o ho
            rcases List.mem_append.mp ho with ho | ho
            · exact h o ho
            · rcases List.mem_singleton.mp ho with rfl
              exact propertiesByCategory_ne_nil _
          have := fetchClass_foldl_properties urlPath api n ih
            (resp.classData.childClassReferences.map (fun cr => cr.code))
            (insert c s.1, s.2 ++ [mkObj urlPath resp]) hbase
          simpa [fetchClass, hc, ha] using this

/-- C10: every record appended to the output by the API-based variant
`fetch_ifc_data` has a non-empty properties mapping, and when the fetched
class yields no properties at all the mapping is exactly the catch-all
`"Attributes"` category holding the single placeholder entry with name
`"Attributes"`, data type `"not in bSDD"` and empty definition
(src/data.py lines 49-67). -/
theorem C10_properties_nonempty (urlPath : String → String)
    (api : α → Option (ApiResponse α)) (fuel : ℕ) (start : α) :
    (∀ obj ∈ (fetchIfcData urlPath api fuel start).2,
        obj.properties ≠ []) ∧
      propertiesByCategory [] =
        [("Attributes", [{ name := "Attributes", data_type := "not in bSDD",
                           definition := "" }])] := by
  constructor
  · intro obj hobj
    refine fetchClass_properties_ne_nil urlPath api fuel (∅, []) start
      ?_ obj hobj
    intro o ho
    simp at ho
  · rfl

/-! ### Claims C1 and C2: in-wave duplicates are neither deduplicated nor
kept out of the results -/

/-- C1 is refuted by the code of `crawl_all_classes`: on the diamond graph
where Root's children P and Q both list the same child Z and every fetch
succeeds, the final results hold TWO records for Z — the wave [Z, Z] built
from the two parents is submitted as two futures and both successes are
appended (src/main.py lines 315 and 320-322).  The identifier Z appears
twice in the final result collection, not at most once. -/
theorem C1_duplicate_record_eval :
    (crawlAllClasses fDup sigmaId 5 "Root").results =
        ["Root", "P", "Q", "Z", "Z"] ∧
      ((crawlAllClasses fDup sigmaId 5 "Root").results.count "Z") = 2 :=
  ⟨rfl, rfl⟩

/-- C2 is refuted by the code of `crawl_all_classes`: when the pending list
contains Z twice (two parents of the prior wave each listed child Z), the
dict comprehension of line 315 calls `executor.submit` once per occurrence —
the third wave of the diamond-graph crawl issues TWO fetch calls for Z, not
exactly one; no in-wave deduplication happens before dispatch. -/
theorem C2_duplicate_fetch_calls_eval :
    crawlWaves fDup sigmaId 5 (initState (ν := String) "Root") =
        [["Root"], ["P", "Q"], ["Z", "Z"]] ∧
      ((crawlWaves fDup sigmaId 5 (initState (ν := String) "Root")).getD 2
          []).count "Z" = 2 :=
  ⟨rfl, rfl⟩

/-! ### Claim C9: cycle safety on the concrete four-node graph -/

/-- C9: on the graph Root → [A, B], A → [C], B → [], C → [Root] (a cycle
back to the root) with every fetch succeeding, the crawl of
`crawl_all_classes` terminates (empty pending list) with result set exactly
Root, A, B, C, each appearing once; the recursive variant `fetch_ifc_data`
of src/data.py likewise outputs each of the four classes exactly once. -/
theorem C9_cycle_graph_eval :
    (crawlAllClasses fC9 sigmaId 5 "Root").results =
        ["Root", "A", "B", "C"] ∧
      (crawlAllClasses fC9 sigmaId 5 "Root").toCrawl = [] ∧
      ((fetchIfcData id api9 10 "Root").2.map (fun o => o.code)) =
        ["Root", "A", "C", "B"] :=
  ⟨rfl, rfl, rfl⟩

/-! ### Claim C4, counterexample side: the recursive variant marks a failed
identifier visited -/

/-- C4 as stated fails on `fetch_class` of src/data.py: `visited.add` runs
BEFORE the requests (line 22), so when every request for Root raises, Root
ends up in the visited registry although no successful fetch outcome was
ever produced (the output is empty). -/
theorem C4_counterexample_failed_marked_visited :
    apiFail "Root" = none ∧
      "Root" ∈ (fetchIfcData id apiFail 1 "Root").1 ∧
      (fetchIfcData id apiFail 1 "Root").2 = [] :=
  ⟨rfl, by decide, rfl⟩

/-! ### Witnesses -/

/-- Witness for C3 at a concrete input: a state whose registry holds Z
never submits Z in its first wave. -/
theorem C3_witness : "Z" ∉ ((crawlWaves fDup sigmaId 5 stVisitedZ).getD 0 []) :=
  (C3_visited_monotone_never_redispatched fDup sigmaId
      (fun _ l => List.Perm.refl l) 5 stVisitedZ).2 "Z" (by decide) _
    (by decide)

/-- Witness for C4's amended theorem at a concrete input: A is in the final
visited registry of the cycle-graph crawl, so its fetch succeeded. -/
theorem C4_visited_only_successes_witness : (fC9 "A").isSome = true :=
  C4_visited_only_successes fC9 sigmaId 5 (initState "Root")
    (by
      intro u hu
      simp [initState] at hu) "A" (by decide)

/-- Witness for C5 at a concrete input: the failing url X leaves the state
unchanged and the wave [X, P] is processed exactly as the wave [P]. -/
theorem C5_failure_isolated_witness :
    processOne fDup stXP "X" = stXP ∧
      processWave fDup stXP ["X", "P"] =
        processWave fDup stXP
          (["X", "P"].filter (fun u => decide (u ≠ "X"))) :=
  C5_failure_isolated fDup stXP ["X", "P"] "X" rfl

/-- Witness for C6 at a concrete input: X fails in the wave [X, P], its
successful sibling P lists X as a child, and X is dispatched again in the
next wave. -/
theorem C6_failed_rediscovered_redispatched_witness :
    "X" ∈ dispatched (crawlStep fRetry sigmaId 0 stXP) :=
  C6_failed_rediscovered_redispatched fRetry sigmaId
    (fun _ l => List.Perm.refl l) 0 stXP
    (by decide : ("X" : String) ∈ dispatched stXP)
    (by decide : ("P" : String) ∈ dispatched stXP)
    (show fRetry "X" = none from rfl)
    (show fRetry "P" = some ("P", ["X"]) from rfl)
    (by decide : ("X" : String) ∈ ["X"])

/-- Witness for C7 at a concrete input: the cycle graph lies inside the
four-element identifier set, and five loop iterations reach the empty
pending list. -/
theorem C7_terminal_iff_empty_and_terminates_witness :
    (crawlAllClasses fC9 sigmaId
        (({"Root", "A", "B", "C"} : Finset String).card + 1) "Root" :
      CrawlState String String).toCrawl = [] :=
  (C7_terminal_iff_empty_and_terminates fC9 sigmaId
    (fun _ l => List.Perm.refl l) {"Root", "A", "B", "C"} "Root"
    (by decide)
    (by
      intro u pr h c hc
      unfold fC9 at h
      split_ifs at h with h1 h2 h3 h4
      · cases h
        simp at hc
        rcases hc with rfl | rfl <;> decide
      · cases h
        simp at hc
        subst hc
        decide
      · cases h
        simp at hc
      · cases h
        simp at hc
        subst hc
        decide)).1

/-- Witness for C8 at a concrete input: the in-order and reversed
completion schedules give permuted results lists on the cycle graph. -/
theorem C8_deterministic_output_witness :
    List.Perm ((crawlAllClasses fC9 sigmaId 5 "Root").results)
      ((crawlAllClasses fC9 sigmaRev 5 "Root").results) :=
  C8_deterministic_output fC9 sigmaId sigmaRev
    (fun _ l => List.Perm.refl l) (fun _ l => List.reverse_perm l) 5 "Root"

/-- Witness for C10 at a concrete input: the first record output by the
cycle-graph run of `fetch_ifc_data` has a non-empty properties mapping. -/
theorem C10_properties_nonempty_witness :
    ((fetchIfcData id api9 10 "Root").2.getD 0
      (mkObj id (mkResp "" []))).properties ≠ [] :=
  (C10_properties_nonempty id api9 10 "Root").1 _ (by decide)
